import Mathlib

/-!
Verification of the `lockit-utilities` module against its specification.

The module's own code (`src/index.js`) provides five exported functions:
`restrict`, `getDatabase`, `qr`, `verify` and `destroy`.  The TOTP engine
(`notp`) and the base32 codec (`thirty-two`) that `verify` and `qr` delegate
to are external packages whose sources are not part of the repository; they
are modelled here from the specification (RFC 4226/6238 HOTP/TOTP and
RFC 4648 base32, as the spec describes them).

SHA-1 is computed over bit-packed natural numbers (the 5-word state, the
80-word message schedule and the 512-bit blocks each live in one `Nat`),
which keeps kernel evaluation of concrete HMAC values cheap.
-/

namespace Lockit

/-! ## Bytes and 32-bit words -/

/-- Truncate a natural number to 32 bits. -/
def w32 (n : Nat) : Nat := n % 4294967296

/-- Rotate a 32-bit word left by `k` bits (for `n < 2^32`, `0 < k < 32`). -/
def rotl (k n : Nat) : Nat := ((n <<< k) % 4294967296) ||| (n >>> (32 - k))

/-- Big-endian byte rendering of `n`, exactly `k` bytes. -/
def beBytes : Nat → Nat → List Nat
  | 0, _ => []
  | k + 1, n => beBytes k (n / 256) ++ [n % 256]

/-- Iterate `acc := f i acc` for `fuel` steps starting at index `i`.  The
accumulator is pattern-matched at every step, which forces it to a numeral
during kernel reduction and keeps concrete evaluation shallow. -/
def sfold (f : Nat → Nat → Nat) : Nat → Nat → Nat → Nat
  | 0, _, acc => acc
  | fuel + 1, i, acc =>
    match acc with
    | 0 => sfold f fuel (i + 1) (f i 0)
    | m + 1 => sfold f fuel (i + 1) (f i (m + 1))

/-- Strict left fold of `f` over a byte list (same forcing as `sfold`). -/
def sfoldBytes (f : Nat → Nat → Nat) : List Nat → Nat → Nat
  | [], acc => acc
  | b :: rest, acc =>
    match acc with
    | 0 => sfoldBytes f rest (f 0 b)
    | m + 1 => sfoldBytes f rest (f (m + 1) b)

/-- A byte list read as one big-endian natural number. -/
def bytesToNat (l : List Nat) : Nat := sfoldBytes (fun acc b => acc * 256 + b) l 0

/-! ## SHA-1 (FIPS 180), needed by the HOTP transform -/

/-- Word `i` of a schedule packed with word `i` at bit offset `32*i`. -/
def wordAt (packed i : Nat) : Nat := (packed >>> (32 * i)) &&& 4294967295

/-- Repack a 512-bit big-endian block so word `i` sits at bit offset `32*i`. -/
def schedInit (block : Nat) : Nat :=
  sfold (fun i acc => acc ||| (((block >>> (32 * (15 - i))) &&& 4294967295) <<< (32 * i)))
    16 0 0

/-- One step of the SHA-1 message-schedule extension:
`w[i] = rotl 1 (w[i-3] xor w[i-8] xor w[i-14] xor w[i-16])`. -/
def schedExtend (w i : Nat) : Nat :=
  w ||| ((rotl 1 (wordAt w (i - 3) ^^^ wordAt w (i - 8) ^^^
                  wordAt w (i - 14) ^^^ wordAt w (i - 16))) <<< (32 * i))

/-- The full 80-word schedule of a block, packed into one `Nat`. -/
def sched (block : Nat) : Nat :=
  sfold (fun i w => schedExtend w i) 64 16 (schedInit block)

/-- One SHA-1 round.  The state packs `(a,b,c,d,e)` big-endian: `a` at bit
offset 128 down to `e` at offset 0. -/
def sha1Round (w80 st i : Nat) : Nat :=
  let e := st &&& 4294967295
  let d := (st >>> 32) &&& 4294967295
  let c := (st >>> 64) &&& 4294967295
  let b := (st >>> 96) &&& 4294967295
  let a := (st >>> 128) &&& 4294967295
  let f :=
    if i < 20 then (b &&& c) ||| ((b ^^^ 4294967295) &&& d)
    else if i < 40 then b ^^^ c ^^^ d
    else if i < 60 then (b &&& c) ||| (b &&& d) ||| (c &&& d)
    else b ^^^ c ^^^ d
  let k :=
    if i < 20 then 1518500249
    else if i < 40 then 1859775393
    else if i < 60 then 2400959708
    else 3395469782
  let temp := w32 (rotl 5 a + f + e + k + wordAt w80 i)
  ((((temp <<< 32) ||| a) <<< 32 ||| rotl 30 b) <<< 32 ||| c) <<< 32 ||| d

/-- Compress one 512-bit block into the packed 160-bit running hash. -/
def sha1Block (h block : Nat) : Nat :=
  let w80 := sched block
  let st := sfold (fun i s => sha1Round w80 s i) 80 0 h
  let add32 := fun (off : Nat) =>
    w32 (((h >>> off) &&& 4294967295) + ((st >>> off) &&& 4294967295))
  (((((add32 128 <<< 32) ||| add32 96) <<< 32 ||| add32 64) <<< 32 |||
      add32 32) <<< 32) ||| add32 0

/-- SHA-1 padding: `0x80`, zeros to 56 mod 64, then the 8-byte bit length. -/
def sha1Pad (msg : List Nat) : List Nat :=
  let z := (119 - msg.length % 64) % 64
  msg ++ [128] ++ List.replicate z 0 ++ beBytes 8 (msg.length * 8)

/-- The SHA-1 initial hash value, packed. -/
def sha1H0 : Nat :=
  ((((1732584193 <<< 32 ||| 4023233417) <<< 32 ||| 2562383102) <<< 32 |||
      271733878) <<< 32) ||| 3285377520

/-- SHA-1 digest of a byte list, as a 20-byte list. -/
def sha1 (msg : List Nat) : List Nat :=
  let padded := sha1Pad msg
  let n := padded.length / 64
  let m := bytesToNat padded
  beBytes 20 (sfold
    (fun j h => sha1Block h ((m >>> (512 * (n - 1 - j))) %
      13407807929942597099574024998205846127479365820592393377723561443721764030073546976801874298166903427690031858186486050853753882811946569946433649006084096))
    n 0 sha1H0)

/-! ## HMAC-SHA1 and the HOTP transform (RFC 4226) -/

/-- HMAC-SHA1 of `msg` under `key` (both byte lists). -/
def hmacSha1 (key msg : List Nat) : List Nat :=
  let k0 := if 64 < key.length then sha1 key else key
  let kp := k0 ++ List.replicate (64 - k0.length) 0
  sha1 ((kp.map (fun b => b ^^^ 92)) ++ sha1 ((kp.map (fun b => b ^^^ 54)) ++ msg))

/-- Dynamic truncation of RFC 4226: the 31-bit integer extracted from the
HMAC-SHA1 of the 8-byte big-endian counter. -/
def hotpValue (secret : List Nat) (counter : Nat) : Nat :=
  let h := hmacSha1 secret (beBytes 8 counter)
  let off := (h.getD 19 0) &&& 15
  (((h.getD off 0) &&& 127) <<< 24) + ((h.getD (off + 1) 0) <<< 16) +
    ((h.getD (off + 2) 0) <<< 8) + h.getD (off + 3) 0

/-- The decimal digit character for `n < 10`. -/
def decChar (n : Nat) : Char :=
  match n with
  | 0 => '0' | 1 => '1' | 2 => '2' | 3 => '3' | 4 => '4'
  | 5 => '5' | 6 => '6' | 7 => '7' | 8 => '8' | _ => '9'

/-- Zero-padded decimal rendering of `n`, exactly `width` characters. -/
def padDec : Nat → Nat → List Char
  | 0, _ => []
  | width + 1, n => padDec width (n / 10) ++ [decChar (n % 10)]

/-- Modelled from the spec: `notp`'s HOTP code generation (`generate` in the
spec's OtpEngine), absent from `src/`.  `Code = P mod 10^digits`, rendered
as a zero-padded decimal string of width `digits`. -/
def generate (secret : List Nat) (counter : Nat) (digits : Nat) : String :=
  ⟨padDec digits (hotpValue secret counter % 10 ^ digits)⟩

/-! ## The TOTP window search (`notp`'s `totp.verify`, modelled from the spec) -/

/-- The engine's verification result: `some ⟨delta⟩` stands for
`{matched: true, delta}`, `none` for `{matched: false}`. -/
structure VerifyResult where
  delta : Int
deriving DecidableEq, Repr

/-- The options object accepted by `verify`: `window` (allowable counter
margin, default 6) and `time` (time step in seconds, default 30); either
field may be absent. -/
structure VerifyOpts where
  window : Option Nat
  time : Option Nat
deriving DecidableEq, Repr

/-- The drift offsets in search order: `0` first, then by increasing
absolute distance with the past offset before the future one. -/
def searchOrder : Nat → List Int
  | 0 => [0]
  | w + 1 => searchOrder w ++ [-(w + 1 : Int), (w + 1 : Int)]

/-- `generate` at an integer counter, reduced to the 64-bit counter space. -/
def genAt (secret : List Nat) (c : Int) : String :=
  generate secret ((c % (18446744073709551616 : Int)).toNat) 6

/-- Modelled from the spec: `notp`'s `totp.verify`, absent from `src/`.
Computes `currentCounter = floor(now / timeStep)` and searches the window
of drift offsets in `searchOrder`, returning the first matching offset. -/
def totpVerify (token : String) (secret : List Nat) (opts : VerifyOpts)
    (now : Nat) : Option VerifyResult :=
  let step := opts.time.getD 30
  let w := opts.window.getD 6
  let c : Int := (now / step : Nat)
  ((searchOrder w).find? (fun d => decide (genAt secret (c + d) = token))).map
    (fun d => ⟨d⟩)

/-! ## The exported `verify` (src/index.js lines 160-167)

`verify` returns `(verified && verified.delta === 0) ? true : false`.  To
state what kind of JavaScript value it produces, its body is embedded over
a small JavaScript value type. -/

/-- The JavaScript values that can appear in `verify`'s data flow. -/
inductive JsVal where
  | bool (b : Bool)
  | obj (r : VerifyResult)
  | nullv
deriving DecidableEq, Repr

/-- JavaScript truthiness for the values of `JsVal`. -/
def truthy : JsVal → Bool
  | .bool b => b
  | .obj _ => true
  | .nullv => false

/-- The exported `verify(token, key, options)`: `options = options || {}`,
then `verified = totp.verify(token, key, options)`, then
`(verified && verified.delta === 0) ? true : false`.  The conjunction
evaluates to `verified` itself when `verified` is null, else to the
comparison `verified.delta === 0`; the conditional maps that to a Boolean
literal. -/
def verify (token : String) (key : List Nat) (options : Option VerifyOpts)
    (now : Nat) : JsVal :=
  let opts := options.getD ⟨none, none⟩
  let verified := totpVerify token key opts now
  let cond : JsVal :=
    match verified with
    | none => .nullv
    | some r => .bool (r.delta == 0)
  if truthy cond then .bool true else .bool false

/-! ## `restrict` (src/index.js lines 23-43) -/

/-- The configuration object taken by `restrict`: an optional `loginRoute`
string and the `rest` flag (absent fields are JavaScript-falsy). -/
structure RestrictConfig where
  loginRoute : Option String
  rest : Bool
deriving DecidableEq, Repr

/-- The parts of an Express request that `restrict`'s guard reads. -/
structure Request where
  loggedIn : Bool
  url : String
deriving DecidableEq, Repr

/-- What the guard does with a request: pass it on, answer with a bare
status code, or redirect. -/
inductive GuardAction where
  | callNext
  | send (status : Nat)
  | redirect (location : String)
deriving DecidableEq, Repr

/-- The JavaScript `config.loginRoute || '/login'`: the default applies when
the field is absent or the empty string (both falsy). -/
def routeOf (config : RestrictConfig) : String :=
  match config.loginRoute with
  | some s => if s = "" then "/login" else s
  | none => "/login"

/-- `restrict(config)`: `config = config || {}`, then the returned guard
calls `next()` for a logged-in session, sends `401` when `config.rest` is
set, and otherwise redirects to `route + '?redirect=' + req.url`. -/
def restrict (config : Option RestrictConfig) (req : Request) : GuardAction :=
  let cfg := config.getD ⟨none, false⟩
  let route := routeOf cfg
  if req.loggedIn then .callNext
  else if cfg.rest then .send 401
  else .redirect (route ++ "?redirect=" ++ req.url)

/-! ## `getDatabase` (src/index.js lines 71-106) -/

/-- The database connection descriptor: either a plain URI string or an
object carrying a `url` field. -/
inductive DbConfig where
  | uri (s : String)
  | obj (url : String)
deriving DecidableEq, Repr

/-- The JavaScript `config.db.url || config.db`: for a string descriptor,
`.url` is undefined (falsy), so the string itself is used; for an object
descriptor the `url` field is used unless it is falsy (the empty string),
in which case the expression falls back to the object itself — a
non-string, rendered here as `none`. -/
def dbUri : DbConfig → Option String
  | .uri s => some s
  | .obj url => if url = "" then none else some url

/-- The result object: both fields stay unset when no scheme case matches
(the `switch` has no default branch, so `res` remains `{}`). -/
structure DbResult where
  type : Option String
  adapter : Option String
deriving DecidableEq, Repr

/-- What a call to `getDatabase` does: return a result object, or raise the
`TypeError` that `url.parse` throws when handed a non-string. -/
inductive DbOutcome where
  | ok (r : DbResult)
  | typeError
deriving DecidableEq, Repr

/-- The ECMAScript whitespace characters removed by `String.prototype.trim`
(WhiteSpace and LineTerminator code points). -/
def jsWhitespace (c : Char) : Bool :=
  c.toNat == 9 || c.toNat == 10 || c.toNat == 11 || c.toNat == 12 ||
    c.toNat == 13 || c.toNat == 32 || c.toNat == 160 || c.toNat == 5760 ||
    (8192 ≤ c.toNat && c.toNat ≤ 8202) || c.toNat == 8232 || c.toNat == 8233 ||
    c.toNat == 8239 || c.toNat == 8287 || c.toNat == 12288 || c.toNat == 65279

/-- JavaScript's `trim`: strip whitespace from both ends. -/
def jsTrim (l : List Char) : List Char :=
  ((l.dropWhile jsWhitespace).reverse.dropWhile jsWhitespace).reverse

/-- Is `c` allowed inside a URL scheme (`url.parse`'s protocol pattern
`[a-z0-9.+-]+`, case-insensitive)? -/
def schemeChar (c : Char) : Bool :=
  c.isAlpha || c.isDigit || c == '+' || c == '-' || c == '.'

/-- The `protocol` field of Node's `url.parse`: the input is trimmed first,
then the leading run of scheme characters up to a `:` is taken, lower-cased
and including the `:`; `none` when the trimmed string does not begin with
`scheme:`. -/
def urlProtocol (s : String) : Option String :=
  let t := jsTrim s.data
  let scheme := t.takeWhile schemeChar
  if scheme ≠ [] ∧ (t.drop scheme.length).head? = some ':' then
    some ⟨scheme.map Char.toLower ++ [':']⟩
  else none

/-- `getDatabase(config)`: take `config.db.url || config.db` (a TypeError
when that is not a string), then dispatch on the parsed protocol (the
`switch` of the source, with `http:` and `https:` sharing a case); the five
known schemes set `type` and `adapter`, anything else leaves the result
empty. -/
def getDatabase (config : DbConfig) : DbOutcome :=
  match dbUri config with
  | none => .typeError
  | some uri =>
    let prot := urlProtocol uri
    .ok (if prot = some "http:" ∨ prot = some "https:" then
      ⟨some "couchdb", some "lockit-couchdb-adapter"⟩
    else if prot = some "mongodb:" then ⟨some "mongodb", some "lockit-mongodb-adapter"⟩
    else if prot = some "postgres:" then ⟨some "postgresql", some "lockit-sql-adapter"⟩
    else if prot = some "mysql:" then ⟨some "mysql", some "lockit-sql-adapter"⟩
    else if prot = some "sqlite:" then ⟨some "sqlite", some "lockit-sql-adapter"⟩
    else ⟨none, none⟩)

/-! ## Base32 (RFC 4648), modelling `thirty-two`'s `encode`/`decode`

The package itself is not part of the repository; the spec describes the
codec as: map every 5-bit group of the input (padded with zero bits to a
multiple of 5) to one of the 32 alphabet characters, then append `=` until
the length is a multiple of 8; decoding is case-insensitive on the
alphabet, rejects foreign characters and inconsistent padding, and is the
exact left inverse of encoding. -/

/-- The bits of a byte, most significant first. -/
def byteBits (b : Nat) : List Nat :=
  [b / 128 % 2, b / 64 % 2, b / 32 % 2, b / 16 % 2, b / 8 % 2, b / 4 % 2, b / 2 % 2, b % 2]

/-- The bits of a 5-bit group, most significant first. -/
def quintBits (v : Nat) : List Nat :=
  [v / 16 % 2, v / 8 % 2, v / 4 % 2, v / 2 % 2, v % 2]

/-- All bits of a byte list. -/
def bitsOfBytes (l : List Nat) : List Nat := (l.map byteBits).flatten

/-- Group a bit list into 5-bit values, zero-padding the last group. -/
def toQuints : List Nat → List Nat
  | [] => []
  | b0 :: b1 :: b2 :: b3 :: b4 :: rest =>
      (16 * b0 + 8 * b1 + 4 * b2 + 2 * b3 + b4) :: toQuints rest
  | l => [16 * l.getD 0 0 + 8 * l.getD 1 0 + 4 * l.getD 2 0 + 2 * l.getD 3 0 + l.getD 4 0]

/-- Reassemble bytes from a bit list, dropping a trailing partial byte. -/
def toBytes : List Nat → List Nat
  | b0 :: b1 :: b2 :: b3 :: b4 :: b5 :: b6 :: b7 :: rest =>
      (128 * b0 + 64 * b1 + 32 * b2 + 16 * b3 + 8 * b4 + 4 * b5 + 2 * b6 + b7) ::
        toBytes rest
  | _ => []

/-- The RFC 4648 base32 alphabet. -/
def b32Alphabet : List Char :=
  ['A', 'B', 'C', 'D', 'E', 'F', 'G', 'H', 'I', 'J', 'K', 'L', 'M', 'N', 'O', 'P',
   'Q', 'R', 'S', 'T', 'U', 'V', 'W', 'X', 'Y', 'Z', '2', '3', '4', '5', '6', '7']

/-- The alphabet character of a 5-bit value. -/
def valToChar (v : Nat) : Char := b32Alphabet.getD v '?'

/-- The 5-bit value of an alphabet character (case-insensitive), or `none`
for a character outside the alphabet. -/
def charToVal (c : Char) : Option Nat := b32Alphabet.findIdx? (fun a => a == c.toUpper)

/-- Modelled from the spec: `thirty-two`'s base32 `encode`, absent from
`src/`: one character per 5-bit group, `=`-padded to a multiple of 8. -/
def b32Encode (s : List Nat) : List Char :=
  let cs := (toQuints (bitsOfBytes s)).map valToChar
  cs ++ List.replicate ((8 - cs.length % 8) % 8) '='

/-- Decode every character of a base32 body, failing on the first
character outside the alphabet. -/
def charsToVals : List Char → Option (List Nat)
  | [] => some []
  | c :: rest =>
    match charToVal c, charsToVals rest with
    | some v, some vs => some (v :: vs)
    | _, _ => none

/-- Modelled from the spec: `thirty-two`'s base32 `decode`, absent from
`src/`: `none` (the `InvalidEncodingError` of the spec) when the length is
not a multiple of 8, a non-`=` follows the data, or a character is outside
the alphabet; otherwise the bytes of the concatenated 5-bit groups. -/
def b32Decode (t : List Char) : Option (List Nat) :=
  if t.length % 8 ≠ 0 then none
  else
    let core := t.takeWhile (fun c => c != '=')
    if (t.drop core.length).any (fun c => c != '=') then none
    else
      match charsToVals core with
      | none => none
      | some vals => some (toBytes ((vals.map quintBits).flatten))

/-! ## `encodeURIComponent` and `qr` (src/index.js lines 126-138) -/

/-- The UTF-8 bytes of a character. -/
def utf8Bytes (c : Char) : List Nat :=
  let n := c.toNat
  if n < 128 then [n]
  else if n < 2048 then [192 + n / 64, 128 + n % 64]
  else if n < 65536 then [224 + n / 4096, 128 + n / 64 % 64, 128 + n % 64]
  else [240 + n / 262144, 128 + n / 4096 % 64, 128 + n / 64 % 64, 128 + n % 64]

/-- The UTF-8 bytes of a string (what `Buffer` makes of a JS string). -/
def strBytes (s : String) : List Nat := (s.data.map utf8Bytes).flatten

/-- The uppercase hexadecimal digit for `n < 16`. -/
def hexChar (n : Nat) : Char :=
  match n with
  | 0 => '0' | 1 => '1' | 2 => '2' | 3 => '3' | 4 => '4' | 5 => '5' | 6 => '6'
  | 7 => '7' | 8 => '8' | 9 => '9' | 10 => 'A' | 11 => 'B' | 12 => 'C'
  | 13 => 'D' | 14 => 'E' | _ => 'F'

/-- `%XX` for one byte. -/
def pctByte (b : Nat) : List Char := ['%', hexChar (b / 16), hexChar (b % 16)]

/-- The characters `encodeURIComponent` leaves unescaped:
`A-Z a-z 0-9 - _ . ! ~ * ' ( )`. -/
def uriUnescaped (c : Char) : Bool :=
  c.isAlpha || c.isDigit || c == '-' || c == '_' || c == '.' || c == '!' ||
    c == '~' || c == '*' || c.toNat == 39 || c == '(' || c == ')'

/-- JavaScript's `encodeURIComponent`: unescaped characters pass through,
every other character becomes the `%XX` escapes of its UTF-8 bytes. -/
def encodeURIComponent (s : String) : String :=
  ⟨(s.data.map (fun c =>
      if uriUnescaped c then [c] else ((utf8Bytes c).map pctByte).flatten)).flatten⟩

/-- The value of an uppercase hexadecimal digit character. -/
def hexVal (c : Char) : Option Nat :=
  (['0', '1', '2', '3', '4', '5', '6', '7', '8', '9', 'A', 'B', 'C', 'D', 'E', 'F']).findIdx?
    (fun a => a == c)

/-- Inverse of percent-encoding, for payloads of ASCII characters:
a `%XX` escape becomes the character with code `XX` (rejected when it is
not ASCII), any other non-`%` character stands for itself. -/
def pctDecode : List Char → Option (List Char)
  | [] => some []
  | c :: rest =>
    if c = '%' then
      match rest with
      | h1 :: h2 :: rest2 =>
        match hexVal h1, hexVal h2, pctDecode rest2 with
        | some a, some b, some tail =>
          if 16 * a + b < 128 then some (Char.ofNat (16 * a + b) :: tail) else none
        | _, _, _ => none
      | _ => none
    else (pctDecode rest).map (fun t => c :: t)

/-- Does `s` begin with the characters of `p`? -/
def strStarts (s p : String) : Bool := s.data.take p.data.length == p.data

/-- The configuration object taken by `qr`. -/
structure QrConfig where
  key : String
  email : String
  issuer : Option String
deriving DecidableEq, Repr

/-- The JavaScript `config.issuer || 'Lockit'`. -/
def issuerOf (config : QrConfig) : String :=
  match config.issuer with
  | some s => if s = "" then "Lockit" else s
  | none => "Lockit"

/-- The Google Charts endpoint that `qr` prepends. -/
def chartApi : String := "https://chart.googleapis.com/chart?chs=200x200&cht=qr&chl="

/-- `qr(config)`: builds `otpauth://totp/<issuer>:<email>?secret=<base32 of
key>&issuer=<issuer>`, percent-encodes that whole URI as one component, and
appends it to the chart API URL. -/
def qr (config : QrConfig) : String :=
  let issuer := issuerOf config
  let label := issuer ++ ":" ++ config.email
  let encoded : String := ⟨b32Encode (strBytes config.key)⟩
  let uri := encodeURIComponent
    ("otpauth://totp/" ++ label ++ "?secret=" ++ encoded ++ "&issuer=" ++ issuer)
  chartApi ++ uri

/-! ## `destroy` (src/index.js lines 180-186) -/

/-- The parts of the request that `destroy` touches: whether a backing
session store is present, and the live session reference. -/
structure SessionReq where
  sessionStore : Bool
  session : Option Nat
deriving DecidableEq, Repr

/-- What a call to `destroy` did: the session reference afterwards, whether
the store-side destroy ran, and whether the completion callback fired. -/
structure DestroyOutcome where
  sessionAfter : Option Nat
  storeDestroyed : Bool
  doneCalled : Bool
deriving DecidableEq, Repr

/-- Modelled from the spec: `req.session.destroy(done)` of the external
session store (absent from `src/`), which destroys the session server-side
and then invokes the completion callback. -/
def storeSessionDestroy : DestroyOutcome := ⟨none, true, true⟩

/-- `destroy(req, done)`: delegate to `req.session.destroy(done)` when a
session store exists, else clear the in-memory reference
(`req.session = null`) and call `done()`. -/
def destroy (req : SessionReq) : DestroyOutcome :=
  if req.sessionStore then storeSessionDestroy
  else ⟨none, false, true⟩

/-! # Theorems -/

set_option maxRecDepth 4000 in
/-- Sanity check of the modelled engine against the RFC 6238 test vector:
for the 20-byte ASCII secret `"12345678901234567890"` at counter 1, the
8-digit code is `94287082` and its 6-digit truncation is `287082`. -/
theorem rfc6238_vector :
    generate [49, 50, 51, 52, 53, 54, 55, 56, 57, 48,
      49, 50, 51, 52, 53, 54, 55, 56, 57, 48] 1 8 = "94287082" ∧
    generate [49, 50, 51, 52, 53, 54, 55, 56, 57, 48,
      49, 50, 51, 52, 53, 54, 55, 56, 57, 48] 1 6 = "287082" := by
  exact ⟨by decide, by decide⟩

/-! ## C9 and C1: the exported `verify` -/

/-- Claim C9: whatever the token, key, options (present or absent) and the
engine's result (null or a result object with any delta), the exported
`verify` evaluates to the JavaScript Boolean `true` or `false` — never the
result object, null, or anything else. -/
theorem verify_returns_a_boolean (token : String) (key : List Nat)
    (options : Option VerifyOpts) (now : Nat) :
    verify token key options now = .bool true ∨
      verify token key options now = .bool false := by
  cases hv : totpVerify token key (options.getD ⟨none, none⟩) now with
  | none => right; simp [verify, hv, truthy]
  | some r =>
    cases hd : (r.delta == 0) with
    | false => right; simp [verify, hv, truthy, hd]
    | true => left; simp [verify, hv, truthy, hd]

/-- Claim C1: the exported `verify` returns `true` exactly when the window
search returns a match with drift `delta = 0`; whenever the search returns
a match at a non-zero delta, `verify` returns `false`. -/
theorem verify_true_iff_zero_delta (token : String) (key : List Nat)
    (options : Option VerifyOpts) (now : Nat) :
    (verify token key options now = .bool true ↔
      totpVerify token key (options.getD ⟨none, none⟩) now = some ⟨0⟩) ∧
    (∀ r, totpVerify token key (options.getD ⟨none, none⟩) now = some r →
      r.delta ≠ 0 → verify token key options now = .bool false) := by
  constructor
  · cases hv : totpVerify token key (options.getD ⟨none, none⟩) now with
    | none => simp [verify, hv, truthy]
    | some r =>
      cases r with
      | mk d =>
        by_cases hd : d = 0
        · subst hd; simp [verify, hv, truthy]
        · simp [verify, hv, truthy, beq_iff_eq, hd, VerifyResult.mk.injEq]
  · intro r hv hd
    cases r with
    | mk d =>
      simp only [VerifyResult.delta] at hd
      simp [verify, hv, truthy, beq_iff_eq, hd]

set_option maxRecDepth 4000 in
/-- Concrete instance of `verify_true_iff_zero_delta`: with the secret
`"ajph"` at time 480 (counter 16) and window 1, the token for counter 17
matches at drift 1, and the exported `verify` rejects it. -/
theorem verify_true_iff_zero_delta_witness :
    totpVerify (genAt [97, 106, 112, 104] 17) [97, 106, 112, 104]
        ⟨some 1, some 30⟩ 480 = some ⟨1⟩ ∧
    (1 : Int) ≠ 0 ∧
    verify (genAt [97, 106, 112, 104] 17) [97, 106, 112, 104]
        (some ⟨some 1, some 30⟩) 480 = .bool false := by
  have h : totpVerify (genAt [97, 106, 112, 104] 17) [97, 106, 112, 104]
      ⟨some 1, some 30⟩ 480 = some ⟨1⟩ := by decide
  exact ⟨h, by decide,
    (verify_true_iff_zero_delta (genAt [97, 106, 112, 104] 17) [97, 106, 112, 104]
      (some ⟨some 1, some 30⟩) 480).2 ⟨1⟩ h (by decide)⟩

/-! ## C4: `getDatabase` -/

/-- A run of scheme characters before a `:` is what `takeWhile` collects. -/
theorem takeWhile_schemeChar (pre tail : List Char) (h : pre.all schemeChar = true) :
    (pre ++ ':' :: tail).takeWhile schemeChar = pre := by
  induction pre with
  | nil =>
    simp [List.takeWhile, show schemeChar ':' = false from rfl]
  | cons a t ih =>
    simp only [List.all_cons, Bool.and_eq_true] at h
    simp [List.takeWhile_cons, h.1, ih h.2]

/-- `dropWhile` cannot pass an element that fails the predicate. -/
theorem dropWhile_append_stop (p : Char → Bool) (l₁ l₂ : List Char) (a : Char)
    (ha : p a = false) :
    (l₁ ++ a :: l₂).dropWhile p = l₁.dropWhile p ++ a :: l₂ := by
  induction l₁ with
  | nil => simp [List.dropWhile_cons, ha]
  | cons b t ih =>
    by_cases hb : p b
    · simp [List.dropWhile_cons, hb, ih]
    · simp [List.dropWhile_cons, hb]

/-- Helper for the scheme clauses: after the trim, `urlProtocol` of a string
that literally begins with `scheme:` (all scheme characters, already
lower-case, the first not whitespace) is `some "scheme:"`, whatever
follows the colon. -/
theorem urlProtocol_scheme (a : Char) (t x : List Char)
    (hna : jsWhitespace a = false)
    (h2 : (a :: t).all schemeChar = true)
    (h3 : (a :: t).map Char.toLower = a :: t) :
    urlProtocol ⟨(a :: t) ++ ':' :: x⟩ = some ⟨(a :: t) ++ [':']⟩ := by
  have htrim : jsTrim ((a :: t) ++ ':' :: x) =
      (a :: t) ++ ':' :: (x.reverse.dropWhile jsWhitespace).reverse := by
    unfold jsTrim
    rw [show ((a :: t) ++ ':' :: x).dropWhile jsWhitespace = (a :: t) ++ ':' :: x by
      simp [List.dropWhile_cons, hna]]
    rw [show ((a :: t) ++ ':' :: x).reverse =
      x.reverse ++ ':' :: (a :: t).reverse by simp]
    rw [dropWhile_append_stop _ _ _ _ (by decide : jsWhitespace ':' = false)]
    simp
  unfold urlProtocol
  rw [htrim]
  dsimp only
  rw [takeWhile_schemeChar (a :: t) _ h2, List.drop_left]
  simp [h3]

/-- Claim C4 (amended): the database resolver maps the URI scheme of the
connection string (after Node's whitespace trim) to the database type and
adapter (`http(s)` to couchdb, `mongodb` to mongodb, `postgres` to
postgresql, `mysql` to mysql, `sqlite` to sqlite); for any connection
string whose scheme is not one of these — or that has no scheme at all —
it returns an object with neither field set, reporting no error; and for
an object descriptor whose `url` field is falsy, `config.db.url ||
config.db` falls back to the object itself and `url.parse` throws a
TypeError. -/
theorem getDatabase_scheme_resolution (d : DbConfig) :
    (∀ r : String, dbUri d = some ⟨'h' :: 't' :: 't' :: 'p' :: ':' :: r.data⟩ →
      getDatabase d = .ok ⟨some "couchdb", some "lockit-couchdb-adapter"⟩) ∧
    (∀ r : String, dbUri d = some ⟨'h' :: 't' :: 't' :: 'p' :: 's' :: ':' :: r.data⟩ →
      getDatabase d = .ok ⟨some "couchdb", some "lockit-couchdb-adapter"⟩) ∧
    (∀ r : String, dbUri d = some ⟨'m' :: 'o' :: 'n' :: 'g' :: 'o' :: 'd' :: 'b' :: ':' :: r.data⟩ →
      getDatabase d = .ok ⟨some "mongodb", some "lockit-mongodb-adapter"⟩) ∧
    (∀ r : String, dbUri d = some ⟨'p' :: 'o' :: 's' :: 't' :: 'g' :: 'r' :: 'e' :: 's' :: ':' :: r.data⟩ →
      getDatabase d = .ok ⟨some "postgresql", some "lockit-sql-adapter"⟩) ∧
    (∀ r : String, dbUri d = some ⟨'m' :: 'y' :: 's' :: 'q' :: 'l' :: ':' :: r.data⟩ →
      getDatabase d = .ok ⟨some "mysql", some "lockit-sql-adapter"⟩) ∧
    (∀ r : String, dbUri d = some ⟨'s' :: 'q' :: 'l' :: 'i' :: 't' :: 'e' :: ':' :: r.data⟩ →
      getDatabase d = .ok ⟨some "sqlite", some "lockit-sql-adapter"⟩) ∧
    (∀ uri : String, dbUri d = some uri →
      (∀ p, urlProtocol uri = some p →
        p ∉ ["http:", "https:", "mongodb:", "postgres:", "mysql:", "sqlite:"]) →
      getDatabase d = .ok ⟨none, none⟩) ∧
    (dbUri d = none → getDatabase d = .typeError) := by
  refine ⟨fun r h => ?_, fun r h => ?_, fun r h => ?_, fun r h => ?_,
    fun r h => ?_, fun r h => ?_, fun uri h hp => ?_, fun h => ?_⟩
  · have hp : urlProtocol ⟨'h' :: 't' :: 't' :: 'p' :: ':' :: r.data⟩ = some "http:" :=
      (urlProtocol_scheme 'h' ['t', 't', 'p'] r.data (by decide) (by decide)
        (by decide)).trans (by decide)
    unfold getDatabase
    rw [h]
    simp [hp]
  · have hp : urlProtocol ⟨'h' :: 't' :: 't' :: 'p' :: 's' :: ':' :: r.data⟩ =
        some "https:" :=
      (urlProtocol_scheme 'h' ['t', 't', 'p', 's'] r.data (by decide) (by decide)
        (by decide)).trans (by decide)
    unfold getDatabase
    rw [h]
    simp [hp]
  · have hp : urlProtocol ⟨'m' :: 'o' :: 'n' :: 'g' :: 'o' :: 'd' :: 'b' :: ':' :: r.data⟩ =
        some "mongodb:" :=
      (urlProtocol_scheme 'm' ['o', 'n', 'g', 'o', 'd', 'b'] r.data (by decide)
        (by decide) (by decide)).trans (by decide)
    unfold getDatabase
    rw [h]
    simp [hp]
  · have hp : urlProtocol
        ⟨'p' :: 'o' :: 's' :: 't' :: 'g' :: 'r' :: 'e' :: 's' :: ':' :: r.data⟩ =
        some "postgres:" :=
      (urlProtocol_scheme 'p' ['o', 's', 't', 'g', 'r', 'e', 's'] r.data (by decide)
        (by decide) (by decide)).trans (by decide)
    unfold getDatabase
    rw [h]
    simp [hp]
  · have hp : urlProtocol ⟨'m' :: 'y' :: 's' :: 'q' :: 'l' :: ':' :: r.data⟩ =
        some "mysql:" :=
      (urlProtocol_scheme 'm' ['y', 's', 'q', 'l'] r.data (by decide) (by decide)
        (by decide)).trans (by decide)
    unfold getDatabase
    rw [h]
    simp [hp]
  · have hp : urlProtocol ⟨'s' :: 'q' :: 'l' :: 'i' :: 't' :: 'e' :: ':' :: r.data⟩ =
        some "sqlite:" :=
      (urlProtocol_scheme 's' ['q', 'l', 'i', 't', 'e'] r.data (by decide) (by decide)
        (by decide)).trans (by decide)
    unfold getDatabase
    rw [h]
    simp [hp]
  · unfold getDatabase
    rw [h]
    cases hprot : urlProtocol uri with
    | none => simp [hprot]
    | some p =>
      have := hp p hprot
      simp only [List.mem_cons, List.mem_singleton] at this
      push_neg at this
      simp [hprot, this.1, this.2.1, this.2.2.1, this.2.2.2.1, this.2.2.2.2.1,
        this.2.2.2.2.2]
  · unfold getDatabase
    rw [h]

/-- Concrete instances of `getDatabase_scheme_resolution`: a CouchDB URI
string, a structured Postgres descriptor, an unrecognized scheme, and an
object descriptor with a falsy `url` (TypeError). -/
theorem getDatabase_scheme_resolution_witness :
    getDatabase (.uri "http://127.0.0.1:5984/") =
      .ok ⟨some "couchdb", some "lockit-couchdb-adapter"⟩ ∧
    getDatabase (.obj "postgres://127.0.0.1:5432/") =
      .ok ⟨some "postgresql", some "lockit-sql-adapter"⟩ ∧
    getDatabase (.uri "foo://localhost/") = .ok ⟨none, none⟩ ∧
    getDatabase (.obj "") = .typeError := by
  refine ⟨?_, ?_, ?_, ?_⟩
  · exact (getDatabase_scheme_resolution (.uri "http://127.0.0.1:5984/")).1
      "//127.0.0.1:5984/" (by decide)
  · exact (getDatabase_scheme_resolution (.obj "postgres://127.0.0.1:5432/")).2.2.2.1
      "//127.0.0.1:5432/" (by decide)
  · exact (getDatabase_scheme_resolution (.uri "foo://localhost/")).2.2.2.2.2.2.1
      "foo://localhost/" (by decide) (by decide)
  · exact (getDatabase_scheme_resolution (.obj "")).2.2.2.2.2.2.2 (by decide)

/-- Claim C4, counterexample to the claim as stated: for the unrecognized
scheme `foo:` the resolver does not report an `UnrecognizedSchemeError` —
no such error value exists in its result at all; it returns the plain
empty object `{}` (both fields unset), exactly as for this input. -/
theorem getDatabase_unrecognized_scheme_is_silent :
    getDatabase (.uri "foo://localhost/") = .ok ⟨none, none⟩ := by decide

/-! ## C2: drift tolerance of the window search -/

/-- `find?` returns `k` when `k` occurs in the list, satisfies the
predicate, and every element before the first occurrence of `k` fails it. -/
theorem find?_eq_first_hit (p : Int → Bool) (l : List Int) (k : Int)
    (hk : k ∈ l) (hpk : p k = true)
    (hpre : ∀ d ∈ l.takeWhile (fun x => x != k), p d = false) :
    l.find? p = some k := by
  induction l with
  | nil => cases hk
  | cons a t ih =>
    by_cases hak : a = k
    · subst hak
      simp [List.find?, hpk]
    · have hne : (a != k) = true := by simpa using hak
      have hpa : p a = false := hpre a (by simp [List.takeWhile_cons, hne])
      have hk' : k ∈ t := by
        rcases List.mem_cons.mp hk with h | h
        · exact absurd h.symm hak
        · exact h
      rw [List.find?_cons, hpa]
      exact ih hk' (fun d hd => hpre d (by simp [List.takeWhile_cons, hne, hd]))

/-- The search order contains exactly the offsets of absolute value at most
the window size. -/
theorem mem_searchOrder (k : Int) (w : Nat) : k ∈ searchOrder w ↔ k.natAbs ≤ w := by
  induction w with
  | zero =>
    simp only [searchOrder, List.mem_singleton]
    omega
  | succ w ih =>
    simp only [searchOrder, List.mem_append, List.mem_cons, List.mem_singleton,
      List.not_mem_nil, or_false, ih]
    omega

/-- Claim C2 (amended): verifying the code generated for counter
`currentCounter + k` succeeds with the reported drift equal to `k` for
`|k| ≤ windowSize` — provided no offset searched before `k` carries the
same code — and fails for `|k| > windowSize` provided no offset inside the
window carries the same code.  (Distinct counters can collide on their
6-digit codes, in which case the search reports the earlier offset; see
the counterexample.) -/
theorem totp_drift_tolerance (secret : List Nat) (w step now : Nat) (k : Int) :
    (k.natAbs ≤ w →
      (∀ d ∈ (searchOrder w).takeWhile (fun x => x != k),
        genAt secret (((now / step : Nat) : Int) + d) ≠
          genAt secret (((now / step : Nat) : Int) + k)) →
      totpVerify (genAt secret (((now / step : Nat) : Int) + k)) secret
        ⟨some w, some step⟩ now = some ⟨k⟩) ∧
    (w < k.natAbs →
      (∀ d ∈ searchOrder w,
        genAt secret (((now / step : Nat) : Int) + d) ≠
          genAt secret (((now / step : Nat) : Int) + k)) →
      totpVerify (genAt secret (((now / step : Nat) : Int) + k)) secret
        ⟨some w, some step⟩ now = none) := by
  constructor
  · intro hk hpre
    unfold totpVerify
    have hfind := find?_eq_first_hit
      (fun d => decide (genAt secret (((now / step : Nat) : Int) + d) =
        genAt secret (((now / step : Nat) : Int) + k)))
      (searchOrder w) k ((mem_searchOrder k w).mpr hk) (by simp)
      (fun d hd => by simpa using hpre d hd)
    simp only [Option.getD]
    rw [hfind]
    rfl
  · intro hk hpre
    unfold totpVerify
    have hfind : (searchOrder w).find?
        (fun d => decide (genAt secret (((now / step : Nat) : Int) + d) =
          genAt secret (((now / step : Nat) : Int) + k))) = none := by
      rw [List.find?_eq_none]
      intro d hd
      simpa using hpre d hd
    simp only [Option.getD]
    rw [hfind]
    rfl

set_option maxRecDepth 4000 in
/-- Claim C2, counterexample to the claim as stated: with the secret
`"ajph"` (bytes `[97,106,112,104]`), time step 30, window 2 and time 450
(counter 15), the codes of counters 15 and 16 coincide, so verifying the
code generated for `currentCounter + 1` reports drift 0, not 1. -/
theorem totp_drift_delta_not_k :
    totpVerify (genAt [97, 106, 112, 104] (((450 / 30 : Nat) : Int) + 1))
        [97, 106, 112, 104] ⟨some 2, some 30⟩ 450 = some ⟨0⟩ ∧
    ¬ totpVerify (genAt [97, 106, 112, 104] (((450 / 30 : Nat) : Int) + 1))
        [97, 106, 112, 104] ⟨some 2, some 30⟩ 450 = some ⟨1⟩ := by
  have h : totpVerify (genAt [97, 106, 112, 104] (((450 / 30 : Nat) : Int) + 1))
      [97, 106, 112, 104] ⟨some 2, some 30⟩ 450 = some ⟨0⟩ := by decide
  exact ⟨h, by rw [h]; decide⟩

set_option maxRecDepth 4000 in
/-- Concrete instance of `totp_drift_tolerance`: with the secret `"abcd"`,
step 30, window 1 and time 90 (counter 3), the code for counter 4 is
accepted with drift 1, and the code for counter 5 (offset 2, outside the
window) is rejected. -/
theorem totp_drift_tolerance_witness :
    ((1 : Int).natAbs ≤ 1 ∧
      (∀ d ∈ (searchOrder 1).takeWhile (fun x => x != (1 : Int)),
        genAt [97, 98, 99, 100] (((90 / 30 : Nat) : Int) + d) ≠
          genAt [97, 98, 99, 100] (((90 / 30 : Nat) : Int) + 1)) ∧
      totpVerify (genAt [97, 98, 99, 100] (((90 / 30 : Nat) : Int) + 1))
        [97, 98, 99, 100] ⟨some 1, some 30⟩ 90 = some ⟨1⟩) ∧
    (1 < (2 : Int).natAbs ∧
      (∀ d ∈ searchOrder 1,
        genAt [97, 98, 99, 100] (((90 / 30 : Nat) : Int) + d) ≠
          genAt [97, 98, 99, 100] (((90 / 30 : Nat) : Int) + 2)) ∧
      totpVerify (genAt [97, 98, 99, 100] (((90 / 30 : Nat) : Int) + 2))
        [97, 98, 99, 100] ⟨some 1, some 30⟩ 90 = none) := by
  refine ⟨⟨by decide, by decide, ?_⟩, ⟨by decide, by decide, ?_⟩⟩
  · exact (totp_drift_tolerance [97, 98, 99, 100] 1 30 90 1).1 (by decide) (by decide)
  · exact (totp_drift_tolerance [97, 98, 99, 100] 1 30 90 2).2 (by decide) (by decide)

/-! ## C3: the provisioning/QR URL -/

/-- Hexadecimal digits decode their own encoding. -/
theorem hexVal_hexChar : ∀ m, m < 16 → hexVal (hexChar m) = some m := by decide

/-- Decoding steps over an unescaped character. -/
theorem pctDecode_plain (c : Char) (hc : ¬ c = '%') (x : List Char) :
    pctDecode (c :: x) = (pctDecode x).map (fun t => c :: t) := by
  rw [pctDecode.eq_def]
  dsimp only
  rw [if_neg hc]

/-- Decoding inverts a `%XX` escape of an ASCII code. -/
theorem pctDecode_escape (n : Nat) (hn : n < 128) (x : List Char) :
    pctDecode ('%' :: hexChar (n / 16) :: hexChar (n % 16) :: x) =
      (pctDecode x).map (fun t => Char.ofNat n :: t) := by
  rw [show pctDecode ('%' :: hexChar (n / 16) :: hexChar (n % 16) :: x) =
    (match hexVal (hexChar (n / 16)), hexVal (hexChar (n % 16)), pctDecode x with
     | some a, some b, some tail =>
       if 16 * a + b < 128 then some (Char.ofNat (16 * a + b) :: tail) else none
     | _, _, _ => none) from rfl]
  rw [hexVal_hexChar _ (by omega), hexVal_hexChar _ (by omega)]
  cases hx : pctDecode x with
  | none => rfl
  | some tail =>
    have harith : 16 * (n / 16) + n % 16 = n := by omega
    simp only [harith, if_pos hn, Option.map_some']

/-- Percent-decoding is a left inverse of the character-level encoding on
ASCII payloads. -/
theorem pctDecode_encChars (s : List Char) (h : ∀ c ∈ s, c.toNat < 128) :
    pctDecode ((s.map (fun c =>
      if uriUnescaped c then [c]
      else ((utf8Bytes c).map pctByte).flatten)).flatten) = some s := by
  induction s with
  | nil => rfl
  | cons c t ih =>
    have hascii := h c (by simp)
    have iht := ih (fun x hx => h x (by simp [hx]))
    simp only [List.map_cons, List.flatten_cons]
    by_cases hu : uriUnescaped c
    · rw [if_pos hu, List.singleton_append]
      have hc : ¬ c = '%' := by
        intro hc
        rw [hc] at hu
        exact absurd hu (by decide)
      rw [pctDecode_plain c hc, iht]
      rfl
    · rw [if_neg hu]
      have hutf : utf8Bytes c = [c.toNat] := by
        unfold utf8Bytes
        rw [if_pos hascii]
      rw [hutf]
      simp only [List.map_cons, List.map_nil, List.flatten_cons, List.flatten_nil,
        List.append_nil, pctByte, List.cons_append, List.nil_append]
      rw [pctDecode_escape c.toNat hascii, iht, Option.map_some', Char.ofNat_toNat]

/-- Percent-decoding inverts `encodeURIComponent` on ASCII strings. -/
theorem pctDecode_encodeURIComponent (s : String) (h : ∀ c ∈ s.data, c.toNat < 128) :
    pctDecode (encodeURIComponent s).data = some s.data :=
  pctDecode_encChars s.data h

/-- Every character the base32 encoder emits is ASCII. -/
theorem b32Encode_ascii (s : List Nat) : ∀ c ∈ b32Encode s, c.toNat < 128 := by
  intro c hc
  unfold b32Encode at hc
  rcases List.mem_append.mp hc with hc | hc
  · rcases List.mem_map.mp hc with ⟨v, _, rfl⟩
    by_cases hv : v < 32
    · unfold valToChar
      interval_cases v <;> decide
    · unfold valToChar
      rw [List.getD_eq_default]
      · decide
      · have : b32Alphabet.length = 32 := rfl
        omega
  · rcases List.eq_of_mem_replicate hc with rfl
    decide

/-- Claim C3 (amended): `qr` produces the Google chart URL, and the `chl`
payload after it is exactly the percent-encoding of a URI of the shape
`otpauth://totp/{issuer}:{email}?secret={base32 of key}&issuer={issuer}`:
decoding the payload yields that URI, character for character. -/
theorem qr_chart_url (key email issuer : String)
    (he : ∀ c ∈ email.data, c.toNat < 128)
    (hi : ∀ c ∈ issuer.data, c.toNat < 128)
    (hne : ¬ issuer = "") :
    strStarts (qr ⟨key, email, some issuer⟩) chartApi = true ∧
    pctDecode ((qr ⟨key, email, some issuer⟩).data.drop chartApi.data.length) =
      some ("otpauth://totp/" ++ (issuer ++ ":" ++ email) ++ "?secret=" ++
        (⟨b32Encode (strBytes key)⟩ : String) ++ "&issuer=" ++ issuer).data := by
  have hiss : issuerOf ⟨key, email, some issuer⟩ = issuer := by
    simp [issuerOf, hne]
  have hqr : qr ⟨key, email, some issuer⟩ = chartApi ++ encodeURIComponent
      ("otpauth://totp/" ++ (issuer ++ ":" ++ email) ++ "?secret=" ++
        (⟨b32Encode (strBytes key)⟩ : String) ++ "&issuer=" ++ issuer) := by
    unfold qr
    rw [hiss]
  have hdata : (qr ⟨key, email, some issuer⟩).data = chartApi.data ++
      (encodeURIComponent ("otpauth://totp/" ++ (issuer ++ ":" ++ email) ++
        "?secret=" ++ (⟨b32Encode (strBytes key)⟩ : String) ++ "&issuer=" ++
        issuer)).data := by
    rw [hqr]
    rfl
  have hascii : ∀ c ∈ ("otpauth://totp/" ++ (issuer ++ ":" ++ email) ++ "?secret=" ++
      (⟨b32Encode (strBytes key)⟩ : String) ++ "&issuer=" ++ issuer).data,
      c.toNat < 128 := by
    intro c hc
    rw [show ("otpauth://totp/" ++ (issuer ++ ":" ++ email) ++ "?secret=" ++
      (⟨b32Encode (strBytes key)⟩ : String) ++ "&issuer=" ++ issuer).data =
      ("otpauth://totp/" : String).data ++ (issuer.data ++ (":" : String).data ++
        email.data) ++ ("?secret=" : String).data ++ b32Encode (strBytes key) ++
        ("&issuer=" : String).data ++ issuer.data from rfl] at hc
    simp only [List.mem_append] at hc
    rcases hc with ((((hc | ((hc | hc) | hc)) | hc) | hc) | hc) | hc
    · revert c hc; decide
    · exact hi c hc
    · revert c hc; decide
    · exact he c hc
    · revert c hc; decide
    · exact b32Encode_ascii _ c hc
    · revert c hc; decide
    · exact hi c hc
  constructor
  · unfold strStarts
    rw [hdata, List.take_left]
    exact beq_self_eq_true _
  · rw [hdata, List.drop_left]
    exact pctDecode_encodeURIComponent _ hascii

set_option maxRecDepth 4000 in
/-- Claim C3, counterexample to the claim as stated: for key `"abcd1234"`,
account `"alice@example.com"` and issuer `"Acme"`, the output of the
builder does not start with `otpauth://totp/Acme%3Aalice%40example.com?secret=`
— the whole otpauth URI is percent-encoded as a single component and
prefixed with the Google chart API URL. -/
theorem qr_not_otpauth_start :
    strStarts (qr ⟨"abcd1234", "alice@example.com", some "Acme"⟩)
      "otpauth://totp/Acme%3Aalice%40example.com?secret=" = false := by decide

set_option maxRecDepth 4000 in
/-- Concrete instance of `qr_chart_url` at key `"abcd1234"`, account
`"alice@example.com"`, issuer `"Acme"`. -/
theorem qr_chart_url_witness :
    ((∀ c ∈ ("alice@example.com" : String).data, c.toNat < 128) ∧
      (∀ c ∈ ("Acme" : String).data, c.toNat < 128) ∧ ¬ ("Acme" : String) = "") ∧
    strStarts (qr ⟨"abcd1234", "alice@example.com", some "Acme"⟩) chartApi = true ∧
    pctDecode ((qr ⟨"abcd1234", "alice@example.com", some "Acme"⟩).data.drop
        chartApi.data.length) =
      some (("otpauth://totp/" ++ ("Acme" ++ ":" ++ "alice@example.com") ++
        "?secret=" ++ (⟨b32Encode (strBytes "abcd1234")⟩ : String) ++ "&issuer=" ++
        "Acme") : String).data := by
  refine ⟨⟨by decide, by decide, by decide⟩, ?_, ?_⟩
  · exact (qr_chart_url "abcd1234" "alice@example.com" "Acme"
      (by decide) (by decide) (by decide)).1
  · exact (qr_chart_url "abcd1234" "alice@example.com" "Acme"
      (by decide) (by decide) (by decide)).2

/-! ## C5: the base32 round-trip -/

/-- `bitsOfBytes` unfolds one byte at a time. -/
theorem bitsOfBytes_cons (b : Nat) (t : List Nat) :
    bitsOfBytes (b :: t) = byteBits b ++ bitsOfBytes t := rfl

/-- Bits are bits. -/
theorem byteBits_lt_two (b : Nat) : ∀ x ∈ byteBits b, x < 2 := by
  simp only [byteBits, List.mem_cons, List.not_mem_nil, or_false]
  rintro x (rfl | rfl | rfl | rfl | rfl | rfl | rfl | rfl) <;> omega

/-- All entries of a byte list's bit expansion are bits. -/
theorem bitsOfBytes_lt_two (s : List Nat) : ∀ x ∈ bitsOfBytes s, x < 2 := by
  intro x hx
  rcases List.mem_flatten.mp hx with ⟨l, hl, hxl⟩
  rcases List.mem_map.mp hl with ⟨b, _, rfl⟩
  exact byteBits_lt_two b x hxl

/-- A byte list expands to eight bits per byte. -/
theorem bitsOfBytes_length (s : List Nat) : (bitsOfBytes s).length = 8 * s.length := by
  induction s with
  | nil => rfl
  | cons b t ih =>
    rw [bitsOfBytes_cons, List.length_append, ih]
    simp [byteBits]
    omega

/-- `getD` of a list of bits with default 0 is a bit. -/
theorem getD_lt_two (l : List Nat) (h : ∀ x ∈ l, x < 2) : ∀ i, l.getD i 0 < 2 := by
  induction l with
  | nil => intro i; simp [List.getD]
  | cons a t ih =>
    intro i
    cases i with
    | zero => simpa using h a (by simp)
    | succ j =>
      simp only [List.getD_cons_succ]
      exact ih (fun x hx => h x (by simp [hx])) j

/-- Every 5-bit group value is below 32. -/
theorem toQuints_lt : ∀ (l : List Nat), (∀ x ∈ l, x < 2) → ∀ v ∈ toQuints l, v < 32
  | [], _, v, hv => by cases hv
  | [x0], h, v, hv => by
    have h0 := h x0 (by simp)
    rw [show toQuints [x0] = [16 * x0 + 8 * 0 + 4 * 0 + 2 * 0 + 0] from rfl] at hv
    rcases List.mem_singleton.mp hv with rfl
    omega
  | [x0, x1], h, v, hv => by
    have h0 := h x0 (by simp)
    have h1 := h x1 (by simp)
    rw [show toQuints [x0, x1] = [16 * x0 + 8 * x1 + 4 * 0 + 2 * 0 + 0] from rfl] at hv
    rcases List.mem_singleton.mp hv with rfl
    omega
  | [x0, x1, x2], h, v, hv => by
    have h0 := h x0 (by simp)
    have h1 := h x1 (by simp)
    have h2 := h x2 (by simp)
    rw [show toQuints [x0, x1, x2] = [16 * x0 + 8 * x1 + 4 * x2 + 2 * 0 + 0] from rfl] at hv
    rcases List.mem_singleton.mp hv with rfl
    omega
  | [x0, x1, x2, x3], h, v, hv => by
    have h0 := h x0 (by simp)
    have h1 := h x1 (by simp)
    have h2 := h x2 (by simp)
    have h3 := h x3 (by simp)
    rw [show toQuints [x0, x1, x2, x3] =
      [16 * x0 + 8 * x1 + 4 * x2 + 2 * x3 + 0] from rfl] at hv
    rcases List.mem_singleton.mp hv with rfl
    omega
  | x0 :: x1 :: x2 :: x3 :: x4 :: rest, h, v, hv => by
    rw [show toQuints (x0 :: x1 :: x2 :: x3 :: x4 :: rest) =
      (16 * x0 + 8 * x1 + 4 * x2 + 2 * x3 + x4) :: toQuints rest from rfl] at hv
    rcases List.mem_cons.mp hv with rfl | hv'
    · have h0 := h x0 (by simp)
      have h1 := h x1 (by simp)
      have h2 := h x2 (by simp)
      have h3 := h x3 (by simp)
      have h4 := h x4 (by simp)
      omega
    · exact toQuints_lt rest (fun x hx => h x (by simp [hx])) v hv'

/-- `quintBits` recovers the five bits packed into a 5-bit value. -/
theorem quintBits_pack (b0 b1 b2 b3 b4 : Nat) (h0 : b0 < 2) (h1 : b1 < 2)
    (h2 : b2 < 2) (h3 : b3 < 2) (h4 : b4 < 2) :
    quintBits (16 * b0 + 8 * b1 + 4 * b2 + 2 * b3 + b4) = [b0, b1, b2, b3, b4] := by
  simp only [quintBits, List.cons.injEq, and_true]
  refine ⟨?_, ?_, ?_, ?_, ?_⟩ <;> omega

/-- Decoding the 5-bit groups of a bit list gives the bit list back, plus
the zero bits used to pad it to a multiple of 5. -/
theorem flatten_quintBits_toQuints : ∀ (l : List Nat), (∀ x ∈ l, x < 2) →
    ((toQuints l).map quintBits).flatten = l ++ List.replicate ((5 - l.length % 5) % 5) 0
  | [], _ => rfl
  | [x0], h => by
    have h0 := h x0 (by simp)
    rw [show toQuints [x0] = [16 * x0 + 8 * 0 + 4 * 0 + 2 * 0 + 0] from rfl]
    simp only [List.map_cons, List.map_nil, List.flatten_cons, List.flatten_nil,
      List.append_nil]
    rw [quintBits_pack x0 0 0 0 0 h0 (by omega) (by omega) (by omega) (by omega)]
    rfl
  | [x0, x1], h => by
    have h0 := h x0 (by simp)
    have h1 := h x1 (by simp)
    rw [show toQuints [x0, x1] = [16 * x0 + 8 * x1 + 4 * 0 + 2 * 0 + 0] from rfl]
    simp only [List.map_cons, List.map_nil, List.flatten_cons, List.flatten_nil,
      List.append_nil]
    rw [quintBits_pack x0 x1 0 0 0 h0 h1 (by omega) (by omega) (by omega)]
    rfl
  | [x0, x1, x2], h => by
    have h0 := h x0 (by simp)
    have h1 := h x1 (by simp)
    have h2 := h x2 (by simp)
    rw [show toQuints [x0, x1, x2] = [16 * x0 + 8 * x1 + 4 * x2 + 2 * 0 + 0] from rfl]
    simp only [List.map_cons, List.map_nil, List.flatten_cons, List.flatten_nil,
      List.append_nil]
    rw [quintBits_pack x0 x1 x2 0 0 h0 h1 h2 (by omega) (by omega)]
    rfl
  | [x0, x1, x2, x3], h => by
    have h0 := h x0 (by simp)
    have h1 := h x1 (by simp)
    have h2 := h x2 (by simp)
    have h3 := h x3 (by simp)
    rw [show toQuints [x0, x1, x2, x3] =
      [16 * x0 + 8 * x1 + 4 * x2 + 2 * x3 + 0] from rfl]
    simp only [List.map_cons, List.map_nil, List.flatten_cons, List.flatten_nil,
      List.append_nil]
    rw [quintBits_pack x0 x1 x2 x3 0 h0 h1 h2 h3 (by omega)]
    rfl
  | x0 :: x1 :: x2 :: x3 :: x4 :: rest, h => by
    rw [show toQuints (x0 :: x1 :: x2 :: x3 :: x4 :: rest) =
      (16 * x0 + 8 * x1 + 4 * x2 + 2 * x3 + x4) :: toQuints rest from rfl]
    simp only [List.map_cons, List.flatten_cons]
    rw [quintBits_pack x0 x1 x2 x3 x4 (h x0 (by simp)) (h x1 (by simp))
      (h x2 (by simp)) (h x3 (by simp)) (h x4 (by simp))]
    rw [flatten_quintBits_toQuints rest (fun x hx => h x (by simp [hx]))]
    have hlen : (5 - (x0 :: x1 :: x2 :: x3 :: x4 :: rest).length % 5) % 5 =
        (5 - rest.length % 5) % 5 := by
      simp only [List.length_cons]
      omega
    rw [hlen]
    simp

/-- A bit list shorter than a byte yields no bytes. -/
theorem toBytes_short : ∀ (r : List Nat), r.length < 8 → toBytes r = []
  | [], _ => rfl
  | [_], _ => rfl
  | [_, _], _ => rfl
  | [_, _, _], _ => rfl
  | [_, _, _, _], _ => rfl
  | [_, _, _, _, _], _ => rfl
  | [_, _, _, _, _, _], _ => rfl
  | [_, _, _, _, _, _, _], _ => rfl
  | _ :: _ :: _ :: _ :: _ :: _ :: _ :: _ :: _, hlen => by
    exfalso
    simp only [List.length_cons] at hlen
    omega

/-- `toBytes` recovers a byte from its bit expansion. -/
theorem toBytes_byteBits_append (b : Nat) (hb : b < 256) (x : List Nat) :
    toBytes (byteBits b ++ x) = b :: toBytes x := by
  show toBytes (b / 128 % 2 :: b / 64 % 2 :: b / 32 % 2 :: b / 16 % 2 ::
    b / 8 % 2 :: b / 4 % 2 :: b / 2 % 2 :: b % 2 :: x) = b :: toBytes x
  rw [show toBytes (b / 128 % 2 :: b / 64 % 2 :: b / 32 % 2 :: b / 16 % 2 ::
      b / 8 % 2 :: b / 4 % 2 :: b / 2 % 2 :: b % 2 :: x) =
    (128 * (b / 128 % 2) + 64 * (b / 64 % 2) + 32 * (b / 32 % 2) + 16 * (b / 16 % 2) +
      8 * (b / 8 % 2) + 4 * (b / 4 % 2) + 2 * (b / 2 % 2) + b % 2) :: toBytes x from rfl]
  congr 1
  omega

/-- `toBytes` recovers a byte list from its bit expansion, ignoring up to
seven trailing padding bits. -/
theorem toBytes_bitsOfBytes (s : List Nat) (hs : ∀ b ∈ s, b < 256) :
    ∀ r : List Nat, r.length < 8 → toBytes (bitsOfBytes s ++ r) = s := by
  induction s with
  | nil => intro r hr; simpa [bitsOfBytes] using toBytes_short r hr
  | cons b t ih =>
    intro r hr
    rw [bitsOfBytes_cons, List.append_assoc,
      toBytes_byteBits_append b (hs b (by simp)),
      ih (fun x hx => hs x (by simp [hx])) r hr]

/-- No alphabet character is the padding character. -/
theorem valToChar_ne_pad (v : Nat) : (valToChar v != '=') = true := by
  by_cases hv : v < 32
  · unfold valToChar
    interval_cases v <;> decide
  · unfold valToChar
    rw [List.getD_eq_default]
    · decide
    · have : b32Alphabet.length = 32 := rfl
      omega

/-- Decoding an alphabet character undoes encoding a 5-bit value. -/
theorem charToVal_valToChar : ∀ v, v < 32 → charToVal (valToChar v) = some v := by decide

/-- Decoding a list of encoded 5-bit values succeeds and is the identity. -/
theorem charsToVals_map (l : List Nat) (h : ∀ v ∈ l, v < 32) :
    charsToVals (l.map valToChar) = some l := by
  induction l with
  | nil => rfl
  | cons v t ih =>
    simp only [List.map_cons, charsToVals]
    rw [charToVal_valToChar v (h v (by simp)), ih (fun x hx => h x (by simp [hx]))]

/-- `takeWhile` passes over a block that satisfies the predicate. -/
theorem takeWhile_append_of_all (p : Char → Bool) (l₁ l₂ : List Char)
    (h : ∀ c ∈ l₁, p c = true) :
    (l₁ ++ l₂).takeWhile p = l₁ ++ l₂.takeWhile p := by
  induction l₁ with
  | nil => simp
  | cons a t ih =>
    simp only [List.cons_append, List.takeWhile_cons, h a (by simp), if_true]
    rw [ih (fun c hc => h c (by simp [hc]))]

/-- `takeWhile` for non-padding stops at the first `=`. -/
theorem takeWhile_replicate_pad (n : Nat) :
    (List.replicate n '=').takeWhile (fun c => c != '=') = [] := by
  cases n with
  | zero => rfl
  | succ m =>
    rw [List.replicate_succ, List.takeWhile_cons]
    simp

/-- A padding block contains nothing but `=`. -/
theorem any_replicate_pad (n : Nat) :
    (List.replicate n '=').any (fun c => c != '=') = false := by
  rw [← Bool.not_eq_true, List.any_eq_true]
  rintro ⟨c, hc, hne⟩
  rcases List.eq_of_mem_replicate hc with rfl
  simp at hne

/-- Claim C5: decoding the base32 encoding of any byte sequence yields the
sequence back — encode followed by decode is the identity. -/
theorem b32_decode_encode (s : List Nat) (h : ∀ b ∈ s, b < 256) :
    b32Decode (b32Encode s) = some s := by
  have hquints := toQuints_lt (bitsOfBytes s) (bitsOfBytes_lt_two s)
  have hcsne : ∀ c ∈ (toQuints (bitsOfBytes s)).map valToChar, (c != '=') = true := by
    intro c hc
    rcases List.mem_map.mp hc with ⟨v, _, rfl⟩
    exact valToChar_ne_pad v
  unfold b32Encode b32Decode
  rw [if_neg (by
    simp only [List.length_append, List.length_replicate, List.length_map]
    omega)]
  have hcore : ((toQuints (bitsOfBytes s)).map valToChar ++
      List.replicate ((8 - ((toQuints (bitsOfBytes s)).map valToChar).length % 8) % 8)
        '=').takeWhile (fun c => c != '=') = (toQuints (bitsOfBytes s)).map valToChar := by
    rw [takeWhile_append_of_all _ _ _ hcsne, takeWhile_replicate_pad, List.append_nil]
  simp only [hcore, List.drop_left, any_replicate_pad, Bool.false_eq_true, if_false,
    charsToVals_map _ hquints]
  rw [flatten_quintBits_toQuints (bitsOfBytes s) (bitsOfBytes_lt_two s)]
  rw [toBytes_bitsOfBytes s h _ (by rw [List.length_replicate]; omega)]

/-- Concrete instance of `b32_decode_encode`: the three bytes of `"Man"`
round-trip through the codec. -/
theorem b32_decode_encode_witness :
    (∀ b ∈ [77, 97, 110], b < 256) ∧ b32Decode (b32Encode [77, 97, 110]) = some [77, 97, 110] := by
  exact ⟨by decide, b32_decode_encode [77, 97, 110] (by decide)⟩

/-! ## C6: malformed tokens are ordinary non-matches -/

/-- A fixed-width decimal rendering has exactly its width of characters. -/
theorem padDec_length (width : Nat) : ∀ n, (padDec width n).length = width := by
  induction width with
  | zero => intro n; rfl
  | succ w ih => intro n; simp [padDec, ih]

/-- Every digit character produced by `decChar` is a decimal digit. -/
theorem decChar_isDigit (n : Nat) : (decChar n).isDigit = true := by
  unfold decChar
  split <;> decide

/-- A fixed-width decimal rendering consists of decimal digits only. -/
theorem padDec_all_digits (width : Nat) : ∀ n, ∀ ch ∈ padDec width n, ch.isDigit = true := by
  induction width with
  | zero => intro n ch h; cases h
  | succ w ih =>
    intro n ch h
    rw [padDec] at h
    rcases List.mem_append.mp h with h | h
    · exact ih _ ch h
    · rcases List.mem_singleton.mp h with rfl
      exact decChar_isDigit _

/-- Generated codes always have exactly `digits` characters, all digits. -/
theorem generate_shape (secret : List Nat) (counter digits : Nat) :
    (generate secret counter digits).length = digits ∧
    ∀ ch ∈ (generate secret counter digits).data, ch.isDigit = true := by
  constructor
  · show (padDec digits _).length = digits
    exact padDec_length digits _
  · intro ch h
    exact padDec_all_digits digits _ ch h

/-- Claim C6: for every submitted token — including malformed ones of the
wrong length or with non-digit characters — verification is an ordinary
non-match: the engine reports no match and the exported `verify` returns
the Boolean `false`; no error value appears anywhere. -/
theorem verify_malformed_token (token : String) (key : List Nat)
    (options : Option VerifyOpts) (now : Nat) :
    (token.length ≠ 6 ∨ ∃ ch ∈ token.data, ch.isDigit = false) →
    totpVerify token key (options.getD ⟨none, none⟩) now = none ∧
    verify token key options now = .bool false := by
  intro hmal
  have hne : ∀ c : Int, genAt key c ≠ token := by
    intro c heq
    have hshape := generate_shape key ((c % (18446744073709551616 : Int)).toNat) 6
    rw [show generate key ((c % (18446744073709551616 : Int)).toNat) 6 = genAt key c
      from rfl] at hshape
    rcases hmal with h | ⟨ch, hch, hd⟩
    · exact h (heq ▸ hshape.1)
    · have := hshape.2 ch (by rw [heq]; exact hch)
      rw [this] at hd
      cases hd
  have hnone : totpVerify token key (options.getD ⟨none, none⟩) now = none := by
    unfold totpVerify
    have : (searchOrder ((options.getD ⟨none, none⟩).window.getD 6)).find?
        (fun d => decide (genAt key
          ((((now / (options.getD ⟨none, none⟩).time.getD 30 : Nat)) : Int) + d) = token)) =
          none := by
      rw [List.find?_eq_none]
      intro d _
      simpa using hne _
    simp [this]
    intro x _
    exact hne _
  exact ⟨hnone, by simp [verify, hnone, truthy]⟩

set_option maxRecDepth 4000 in
/-- Concrete instance of `verify_malformed_token`: the five-character token
`"1234a"` (wrong length and a non-digit) is rejected as a plain non-match
under explicit options. -/
theorem verify_malformed_token_witness :
    (("1234a" : String).length ≠ 6 ∨ ∃ ch ∈ ("1234a" : String).data, ch.isDigit = false) ∧
    totpVerify "1234a" [97, 98, 99, 100] ⟨some 0, some 30⟩ 90 = none ∧
    verify "1234a" [97, 98, 99, 100] (some ⟨some 0, some 30⟩) 90 = .bool false := by
  refine ⟨Or.inl (by decide), ?_⟩
  exact verify_malformed_token "1234a" [97, 98, 99, 100] (some ⟨some 0, some 30⟩) 90
    (Or.inl (by decide))

/-! ## C7 and C10: the `restrict` gate -/

/-- Claim C7: for every incoming request, the guard returned by `restrict`
passes the request on when the session is authenticated; otherwise, with
the machine-client (`rest`) flag set, it responds 401 with no redirect;
otherwise it redirects to the configured login route with the requested
URL attached as the `redirect` query parameter. -/
theorem restrict_gate (config : Option RestrictConfig) (req : Request) :
    (req.loggedIn = true → restrict config req = .callNext) ∧
    (req.loggedIn = false → (config.getD ⟨none, false⟩).rest = true →
      restrict config req = .send 401) ∧
    (req.loggedIn = false → (config.getD ⟨none, false⟩).rest = false →
      restrict config req =
        .redirect (routeOf (config.getD ⟨none, false⟩) ++ "?redirect=" ++ req.url)) := by
  refine ⟨fun h => ?_, fun h hr => ?_, fun h hr => ?_⟩
  · simp [restrict, h]
  · simp [restrict, h, hr]
  · simp [restrict, h, hr]

/-- Concrete instances of `restrict_gate`: all three branches observed on
explicit configurations and requests. -/
theorem restrict_gate_witness :
    restrict (some ⟨some "/signin", false⟩) ⟨true, "/a"⟩ = .callNext ∧
    restrict (some ⟨some "/signin", true⟩) ⟨false, "/a"⟩ = .send 401 ∧
    restrict (some ⟨some "/signin", false⟩) ⟨false, "/a"⟩ =
      .redirect "/signin?redirect=/a" := by
  refine ⟨(restrict_gate _ _).1 rfl, (restrict_gate _ _).2.1 rfl rfl, ?_⟩
  exact ((restrict_gate (some ⟨some "/signin", false⟩) ⟨false, "/a"⟩).2.2 rfl rfl).trans
    (by decide)

/-- Claim C10: with no configuration, or one lacking `loginRoute`, an
unauthenticated non-machine-client request is redirected to the default
route `/login` with `?redirect=` and the requested URL appended. -/
theorem restrict_default_route (config : Option RestrictConfig) (req : Request) :
    req.loggedIn = false →
    (config.getD ⟨none, false⟩).rest = false →
    (config = none ∨ (config.getD ⟨none, false⟩).loginRoute = none) →
    restrict config req = .redirect ("/login?redirect=" ++ req.url) := by
  intro h hr hcfg
  have hroute : routeOf (config.getD ⟨none, false⟩) = "/login" := by
    rcases hcfg with hc | hc
    · simp [hc, routeOf]
    · simp [routeOf, hc]
  simp only [restrict, h, Bool.false_eq_true, if_false, hr, hroute]
  rfl

/-- Concrete instances of `restrict_default_route`: the default route is
used both with no configuration and with a configuration that only sets
the `rest` flag to false. -/
theorem restrict_default_route_witness :
    restrict none ⟨false, "/private"⟩ = .redirect "/login?redirect=/private" ∧
    restrict (some ⟨none, false⟩) ⟨false, "/private"⟩ =
      .redirect "/login?redirect=/private" := by
  exact ⟨restrict_default_route none ⟨false, "/private"⟩ rfl rfl (Or.inl rfl),
    restrict_default_route (some ⟨none, false⟩) ⟨false, "/private"⟩ rfl rfl (Or.inr rfl)⟩

/-! ## C8: `destroy` -/

/-- Claim C8: `destroy` destroys the session through the backing store when
one exists and otherwise clears the in-memory session reference; in both
cases the completion callback is invoked. -/
theorem destroy_clears_and_calls_back (req : SessionReq) :
    (destroy req).doneCalled = true ∧
    (req.sessionStore = true →
      (destroy req).storeDestroyed = true ∧ (destroy req).sessionAfter = none) ∧
    (req.sessionStore = false →
      (destroy req).storeDestroyed = false ∧ (destroy req).sessionAfter = none) := by
  cases h : req.sessionStore <;>
    simp [destroy, h, storeSessionDestroy]

/-- Concrete instances of `destroy_clears_and_calls_back` for a request
with and a request without a backing session store. -/
theorem destroy_clears_and_calls_back_witness :
    (destroy ⟨true, some 7⟩).doneCalled = true ∧
    (destroy ⟨true, some 7⟩).storeDestroyed = true ∧
    (destroy ⟨false, some 7⟩).sessionAfter = none := by
  exact ⟨(destroy_clears_and_calls_back ⟨true, some 7⟩).1,
    ((destroy_clears_and_calls_back ⟨true, some 7⟩).2.1 rfl).1,
    ((destroy_clears_and_calls_back ⟨false, some 7⟩).2.2 rfl).2⟩

end Lockit
